import Mathlib

/-!
Verification of the engagement-analytics pipeline of
`zoom_mcp_server_production.py` (workshop_sidekick repository).

The embedding models the pure aggregation logic of the three read-side
operations:

* `track_participant_activity` produces `ActivityRecord`s (the store itself
  is external; we model the record list a session query returns);
* `get_participants` folds the session's records into participant summaries
  exactly as the Python dict-based loop does (insertion-ordered dictionaries
  are modelled as association lists with in-place update);
* `get_engagement_analytics` tallies activity types and per-participant
  counts, sorts the tally with Python's stable descending sort, truncates to
  five, computes the engagement score and the recommendation lines.

Store reads can succeed with a record list, fail with a swallowed
`ClientError` on the CloudWatch fallback path (the code's
`except ClientError: pass` / `activities = []`), or fail with any other
exception that reaches the outer handler.  This is captured by `StoreRead`.
JSON fields that are present only on one path are modelled as `Option`
fields of the response structures.
-/

/-- One activity record, as built by `track_participant_activity`:
`{"timestamp": ..., "participant": ..., "activity": ..., "details": ...,
"session_id": ...}`. -/
structure ActivityRecord where
  timestamp : String
  participant : String
  activity : String
  details : String
  session_id : String
deriving DecidableEq, Repr

/-- Outcome of reading the session's records from the backing store.
`ok` is a successful query (DynamoDB `response['Items']` or the decoded
CloudWatch events), `clientError` is the CloudWatch `ClientError` that the
code swallows (`except ClientError: pass` in `get_participants`,
`activities = []` in `get_engagement_analytics`), and `failure` is any other
exception, which reaches the outer `except Exception` handler. -/
inductive StoreRead where
  | ok (records : List ActivityRecord)
  | clientError
  | failure (msg : String)
deriving DecidableEq, Repr

/-- Python's `d.get(k, default)` on an insertion-ordered dict modelled as an
association list. -/
def dictGet (d : List (String × Nat)) (k : String) (default : Nat) : Nat :=
  match d.find? (fun p => p.1 = k) with
  | some p => p.2
  | none => default

/-- Python's `d[key] = d.get(key, 0) + 1` on an insertion-ordered dict:
update in place when the key is present, append `(k, 1)` otherwise. -/
def bump (d : List (String × Nat)) (k : String) : List (String × Nat) :=
  if d.any (fun p => p.1 = k) then
    d.map (fun p => if p.1 = k then (p.1, p.2 + 1) else p)
  else
    d ++ [(k, 1)]

/-- The tally loop of `get_engagement_analytics`:
`d[key] = d.get(key, 0) + 1` over all activities, key extracted by `f`
(`activity.get("activity", ...)` or `activity.get("participant", ...)`). -/
def tallyBy (f : ActivityRecord → String) (acts : List ActivityRecord) :
    List (String × Nat) :=
  acts.foldl (fun d a => bump d (f a)) []

/-- Stable insertion of one tally entry into a descending-by-count list:
the entry goes before the first element whose count is not larger, so among
equal counts the earlier-inserted element stays first. -/
def insertDesc (x : String × Nat) : List (String × Nat) → List (String × Nat)
  | [] => [x]
  | y :: ys => if x.2 < y.2 then y :: insertDesc x ys else x :: y :: ys

/-- Python's `sorted(items, key=lambda x: x[1], reverse=True)`: a stable sort
by count descending (Python's sort is stable and `reverse=True` preserves the
original order of elements comparing equal). -/
def sortDesc : List (String × Nat) → List (String × Nat)
  | [] => []
  | x :: xs => insertDesc x (sortDesc xs)

/-- First-seen deduplication of a list of names: the key order of a Python
dict filled by `d[key] = ...`. -/
def firstSeen (l : List String) : List String :=
  l.foldl (fun acc x => if x ∈ acc then acc else acc ++ [x]) []

/-- The recommendation block of `get_engagement_analytics`: three
independent threshold rules appending canned strings. -/
def recLines (engagement_score question_count chat_count : Nat) :
    List String :=
  (if engagement_score > 70 then
    ["High engagement detected - workshop is going well"]
  else if engagement_score < 30 then
    ["Low engagement - consider encouraging more participation"]
  else []) ++
  (if question_count > 5 then
    ["Many questions being asked - consider extending Q&A time"]
  else if question_count < 2 then
    ["Few questions - consider prompting for questions"]
  else []) ++
  (if chat_count > 10 then
    ["Good chat interaction"]
  else
    ["Encourage more chat participation"])

/-- The JSON object returned by `get_engagement_analytics`.  Fields that the
failure report omits (`activity_breakdown`, `top_participants`,
`recommendations`) and the `error` field that the success report omits are
`Option`s; the wall-clock `timestamp` field is not modelled. -/
structure AnalyticsResponse where
  total_activities : Nat
  unique_participants : Nat
  engagement_score : Nat
  activity_breakdown : Option (List (String × Nat))
  top_participants : Option (List (String × Nat))
  recommendations : Option (List String)
  error : Option String
deriving DecidableEq, Repr

/-- The success path of `get_engagement_analytics`, applied to the activity
list the store read produced (lines 229-279 of the source). -/
def analyzeActivities (activities : List ActivityRecord) : AnalyticsResponse :=
  let activity_types := tallyBy (fun a => a.activity) activities
  let participant_activity := tallyBy (fun a => a.participant) activities
  let top_participants := (sortDesc participant_activity).take 5
  let total_activities := activities.length
  let unique_participants := participant_activity.length
  let engagement_score := min 100 (total_activities * 2 + unique_participants * 10)
  let question_count := dictGet activity_types "question" 0
  let chat_count := dictGet activity_types "chat_message" 0
  { total_activities := total_activities
    unique_participants := unique_participants
    engagement_score := engagement_score
    activity_breakdown := some activity_types
    top_participants := some top_participants
    recommendations := some (recLines engagement_score question_count chat_count)
    error := none }

/-- `get_engagement_analytics`: a swallowed CloudWatch `ClientError` leaves
`activities = []` and continues on the success path; any other exception
yields the zeroed failure report with an `error` field. -/
def get_engagement_analytics : StoreRead → AnalyticsResponse
  | .ok records => analyzeActivities records
  | .clientError => analyzeActivities []
  | .failure msg =>
    { total_activities := 0
      unique_participants := 0
      engagement_score := 0
      activity_breakdown := none
      top_participants := none
      recommendations := none
      error := some ("Analytics generation failed: " ++ msg) }

/-- One participant summary as built by the `get_participants` fold. -/
structure ParticipantSummary where
  name : String
  status : String
  join_time : String
  activity_count : Nat
  last_activity : String
deriving DecidableEq, Repr

/-- One step of the `get_participants` loop: a first record for a name
appends a fresh summary, a later record increments `activity_count` and
overwrites `last_activity` (lines 124-136 / 149-167 of the source). -/
def participantStep (ps : List ParticipantSummary) (item : ActivityRecord) :
    List ParticipantSummary :=
  if ps.any (fun p => p.name = item.participant) then
    ps.map (fun p =>
      if p.name = item.participant then
        { p with activity_count := p.activity_count + 1
                 last_activity := item.timestamp }
      else p)
  else
    ps ++ [{ name := item.participant
             status := "active"
             join_time := item.timestamp
             activity_count := 1
             last_activity := item.timestamp }]

/-- The full `get_participants` fold over the session's records, in the
order the store returned them; `list(participants.values())` preserves this
insertion order. -/
def foldParticipants (records : List ActivityRecord) : List ParticipantSummary :=
  records.foldl participantStep []

/-- The JSON object returned by `get_participants`; the wall-clock
`timestamp` field is not modelled. -/
structure ParticipantsResponse where
  total_participants : Nat
  participants : List ParticipantSummary
  active_count : Nat
  error : Option String
deriving DecidableEq, Repr

/-- `get_participants`: on a successful read, fold the records; on a
swallowed CloudWatch `ClientError` the dict stays empty and the normal
response is returned without an `error` field; any other exception yields
the empty response with an `error` field. -/
def get_participants : StoreRead → ParticipantsResponse
  | .ok records =>
    let participant_list := foldParticipants records
    { total_participants := participant_list.length
      participants := participant_list
      active_count := (participant_list.filter (fun p => p.status = "active")).length
      error := none }
  | .clientError =>
    { total_participants := 0
      participants := []
      active_count := 0
      error := none }
  | .failure msg =>
    { total_participants := 0
      participants := []
      active_count := 0
      error := some ("Failed to get participants: " ++ msg) }

/-! ### Basic lemmas about the insertion-ordered dict operations -/

lemma tallyBy_append (f : ActivityRecord → String) (acts : List ActivityRecord)
    (a : ActivityRecord) :
    tallyBy f (acts ++ [a]) = bump (tallyBy f acts) (f a) := by
  simp [tallyBy, List.foldl_append]

lemma any_key_iff (d : List (String × Nat)) (k : String) :
    d.any (fun p => p.1 = k) = true ↔ k ∈ d.map Prod.fst := by
  constructor
  · intro h
    rcases List.any_eq_true.mp h with ⟨p, hp, hpk⟩
    exact List.mem_map.mpr ⟨p, hp, by simpa using hpk⟩
  · intro h
    rcases List.mem_map.mp h with ⟨p, hp, hpk⟩
    exact List.any_eq_true.mpr ⟨p, hp, by simpa using hpk⟩

lemma bump_keys (d : List (String × Nat)) (k : String) :
    (bump d k).map Prod.fst =
      if d.any (fun p => p.1 = k) then d.map Prod.fst
      else d.map Prod.fst ++ [k] := by
  unfold bump
  split
  · rw [List.map_map]
    congr 1
    funext p
    by_cases hp : p.1 = k <;> simp [hp]
  · simp

lemma bump_length (d : List (String × Nat)) (k : String) :
    d.length ≤ (bump d k).length := by
  unfold bump
  split <;> simp

lemma tallyBy_keys_nodup (f : ActivityRecord → String) (acts : List ActivityRecord) :
    ((tallyBy f acts).map Prod.fst).Nodup := by
  induction acts using List.reverseRecOn with
  | nil => simp [tallyBy]
  | append_singleton l a ih =>
    rw [tallyBy_append, bump_keys]
    split
    · exact ih
    · rename_i h
      have hk : f a ∉ (tallyBy f l).map Prod.fst := fun hmem =>
        h ((any_key_iff _ _).mpr hmem)
      simp [List.nodup_append, ih, hk]

lemma tallyBy_mem_keys (f : ActivityRecord → String) (acts : List ActivityRecord) :
    ∀ k, k ∈ (tallyBy f acts).map Prod.fst ↔ ∃ a ∈ acts, f a = k := by
  induction acts using List.reverseRecOn with
  | nil => simp [tallyBy]
  | append_singleton l a ih =>
    intro k
    rw [tallyBy_append, bump_keys]
    split
    · rename_i h
      have hka : f a ∈ (tallyBy f l).map Prod.fst := (any_key_iff _ _).mp h
      rw [ih]
      constructor
      · rintro ⟨b, hb, hfb⟩
        exact ⟨b, by simp [hb], hfb⟩
      · rintro ⟨b, hb, hfb⟩
        rcases List.mem_append.mp hb with hb | hb
        · exact ⟨b, hb, hfb⟩
        · have hba : b = a := by simpa using hb
          subst hba
          subst hfb
          exact (ih (f b)).mp hka
    · rename_i h
      rw [List.mem_append, ih, List.mem_singleton]
      constructor
      · rintro (⟨b, hb, hfb⟩ | hk)
        · exact ⟨b, by simp [hb], hfb⟩
        · exact ⟨a, by simp, hk.symm⟩
      · rintro ⟨b, hb, hfb⟩
        rcases List.mem_append.mp hb with hb | hb
        · exact Or.inl ⟨b, hb, hfb⟩
        · have hba : b = a := by simpa using hb
          subst hba
          exact Or.inr hfb.symm

lemma tallyBy_count (f : ActivityRecord → String) (acts : List ActivityRecord) :
    ∀ kv ∈ tallyBy f acts, kv.2 = acts.countP (fun a => f a = kv.1) := by
  induction acts using List.reverseRecOn with
  | nil => simp [tallyBy]
  | append_singleton l a ih =>
    intro kv hkv
    rw [tallyBy_append] at hkv
    rw [List.countP_append]
    unfold bump at hkv
    split at hkv
    · rename_i h
      rcases List.mem_map.mp hkv with ⟨p, hp, hpe⟩
      by_cases hpk : p.1 = f a
      · rw [if_pos hpk] at hpe
        have h1 : kv.1 = p.1 := by rw [← hpe]
        have h2 : kv.2 = p.2 + 1 := by rw [← hpe]
        rw [h1, h2, ih p hp]
        have : List.countP (fun x => decide (f x = p.1)) [a] = 1 := by
          simp [List.countP_cons, hpk]
        omega
      · rw [if_neg hpk] at hpe
        subst hpe
        rw [ih p hp]
        have : List.countP (fun x => decide (f x = p.1)) [a] = 0 := by
          simp [List.countP_cons]
          intro hfa
          exact hpk hfa.symm
        omega
    · rename_i h
      rcases List.mem_append.mp hkv with hkv | hkv
      · have hne : ¬ f a = kv.1 := by
          intro hfa
          apply h
          apply (any_key_iff _ _).mpr
          rw [hfa]
          exact List.mem_map.mpr ⟨kv, hkv, rfl⟩
        rw [ih kv hkv]
        have : List.countP (fun x => decide (f x = kv.1)) [a] = 0 := by
          simp [List.countP_cons, hne]
        omega
      · have hkva : kv = (f a, 1) := by simpa using hkv
        subst hkva
        have hzero : List.countP (fun x => decide (f x = f a)) l = 0 := by
          rw [List.countP_eq_zero]
          intro b hb hfb
          apply h
          apply (any_key_iff _ _).mpr
          apply (tallyBy_mem_keys f l (f a)).mpr
          exact ⟨b, hb, by simpa using hfb⟩
        simp only []
        rw [hzero]
        simp [List.countP_cons]

lemma dictGet_tallyBy (f : ActivityRecord → String) (acts : List ActivityRecord)
    (k : String) :
    dictGet (tallyBy f acts) k 0 = acts.countP (fun a => f a = k) := by
  unfold dictGet
  cases hfind : (tallyBy f acts).find? (fun p => p.1 = k) with
  | none =>
    rw [List.find?_eq_none] at hfind
    symm
    rw [List.countP_eq_zero]
    intro a ha hfa
    have hk : k ∈ (tallyBy f acts).map Prod.fst :=
      (tallyBy_mem_keys f acts k).mpr ⟨a, ha, by simpa using hfa⟩
    rcases List.mem_map.mp hk with ⟨p, hp, hpk⟩
    exact hfind p hp (by simpa using hpk)
  | some p =>
    have hmem := List.mem_of_find?_eq_some hfind
    have hp1 : p.1 = k := by
      have := List.find?_some hfind
      simpa using this
    show p.2 = _
    rw [tallyBy_count f acts p hmem, hp1]

lemma tallyBy_length (f : ActivityRecord → String) (acts : List ActivityRecord) :
    (tallyBy f acts).length = (acts.map f).toFinset.card := by
  have hnd := tallyBy_keys_nodup f acts
  have hset : ((tallyBy f acts).map Prod.fst).toFinset = (acts.map f).toFinset := by
    ext k
    rw [List.mem_toFinset, List.mem_toFinset, tallyBy_mem_keys, List.mem_map]
  calc (tallyBy f acts).length
      = ((tallyBy f acts).map Prod.fst).length := by simp
    _ = ((tallyBy f acts).map Prod.fst).toFinset.card :=
        (List.toFinset_card_of_nodup hnd).symm
    _ = (acts.map f).toFinset.card := by rw [hset]

lemma firstSeen_append (l : List String) (x : String) :
    firstSeen (l ++ [x]) =
      if x ∈ firstSeen l then firstSeen l else firstSeen l ++ [x] := by
  simp [firstSeen, List.foldl_append]

lemma tallyBy_keys_firstSeen (f : ActivityRecord → String)
    (acts : List ActivityRecord) :
    (tallyBy f acts).map Prod.fst = firstSeen (acts.map f) := by
  induction acts using List.reverseRecOn with
  | nil => rfl
  | append_singleton l a ih =>
    rw [tallyBy_append, bump_keys, List.map_append, List.map_singleton,
      firstSeen_append, ← ih]
    by_cases h : (tallyBy f l).any (fun p => p.1 = f a)
    · rw [if_pos h, if_pos ((any_key_iff _ _).mp h)]
    · rw [if_neg h, if_neg (fun hmem => h ((any_key_iff _ _).mpr hmem))]

/-! ### The stable descending sort of the per-participant tally -/

lemma insertDesc_mem (x : String × Nat) (l : List (String × Nat)) :
    ∀ z ∈ insertDesc x l, z = x ∨ z ∈ l := by
  induction l with
  | nil => simp [insertDesc]
  | cons y ys ih =>
    intro z hz
    unfold insertDesc at hz
    split at hz
    · rcases List.mem_cons.mp hz with hzy | hz
      · exact Or.inr (by simp [hzy])
      · rcases ih z hz with hzx | hz
        · exact Or.inl hzx
        · exact Or.inr (by simp [hz])
    · rcases List.mem_cons.mp hz with hzx | hz
      · exact Or.inl hzx
      · exact Or.inr hz

lemma insertDesc_pairwise (x : String × Nat) (l : List (String × Nat))
    (hl : l.Pairwise (fun a b => b.2 ≤ a.2)) :
    (insertDesc x l).Pairwise (fun a b => b.2 ≤ a.2) := by
  induction l with
  | nil => simp [insertDesc]
  | cons y ys ih =>
    rw [List.pairwise_cons] at hl
    unfold insertDesc
    split
    · rename_i h
      rw [List.pairwise_cons]
      refine ⟨?_, ih hl.2⟩
      intro z hz
      rcases insertDesc_mem x ys z hz with hzx | hz
      · subst hzx
        exact Nat.le_of_lt h
      · exact hl.1 z hz
    · rename_i h
      rw [List.pairwise_cons]
      refine ⟨?_, List.pairwise_cons.mpr hl⟩
      intro z hz
      rcases List.mem_cons.mp hz with hzy | hz
      · subst hzy
        exact Nat.le_of_not_lt h
      · exact Nat.le_trans (hl.1 z hz) (Nat.le_of_not_lt h)

lemma sortDesc_pairwise (l : List (String × Nat)) :
    (sortDesc l).Pairwise (fun a b => b.2 ≤ a.2) := by
  induction l with
  | nil => simp [sortDesc]
  | cons x xs ih => exact insertDesc_pairwise x _ ih

lemma insertDesc_filter (x : String × Nat) (l : List (String × Nat)) (c : Nat) :
    (insertDesc x l).filter (fun p => p.2 = c) =
      if x.2 = c then x :: l.filter (fun p => p.2 = c)
      else l.filter (fun p => p.2 = c) := by
  induction l with
  | nil => by_cases hx : x.2 = c <;> simp [insertDesc, hx]
  | cons y ys ih =>
    unfold insertDesc
    split
    · rename_i h
      rw [List.filter_cons]
      by_cases hy : y.2 = c
      · have hx : ¬ x.2 = c := by omega
        rw [if_neg hx] at ih ⊢
        rw [List.filter_cons, if_pos (by simpa using hy), ih]
        simp [List.filter_cons, hy]
      · rw [List.filter_cons, if_neg (by simpa using hy), ih]
        by_cases hx : x.2 = c <;> simp [hx, List.filter_cons, hy]
    · by_cases hx : x.2 = c <;>
        simp [hx, List.filter_cons]

lemma sortDesc_filter (l : List (String × Nat)) (c : Nat) :
    (sortDesc l).filter (fun p => p.2 = c) = l.filter (fun p => p.2 = c) := by
  induction l with
  | nil => rfl
  | cons x xs ih =>
    show (insertDesc x (sortDesc xs)).filter (fun p => p.2 = c) = _
    rw [insertDesc_filter, List.filter_cons]
    by_cases hx : x.2 = c
    · rw [if_pos hx, if_pos (by simpa using hx), ih]
    · rw [if_neg hx, if_neg (by simpa using hx), ih]

/-! ### Lemmas about the `get_participants` fold -/

lemma foldParticipants_append (records : List ActivityRecord) (r : ActivityRecord) :
    foldParticipants (records ++ [r]) =
      participantStep (foldParticipants records) r := by
  simp [foldParticipants, List.foldl_append]

lemma any_name_iff (ps : List ParticipantSummary) (n : String) :
    ps.any (fun p => p.name = n) = true ↔ n ∈ ps.map (fun p => p.name) := by
  constructor
  · intro h
    rcases List.any_eq_true.mp h with ⟨p, hp, hpn⟩
    exact List.mem_map.mpr ⟨p, hp, by simpa using hpn⟩
  · intro h
    rcases List.mem_map.mp h with ⟨p, hp, hpn⟩
    exact List.any_eq_true.mpr ⟨p, hp, by simpa using hpn⟩

lemma participantStep_names (ps : List ParticipantSummary) (r : ActivityRecord) :
    (participantStep ps r).map (fun p => p.name) =
      if ps.any (fun p => p.name = r.participant) then ps.map (fun p => p.name)
      else ps.map (fun p => p.name) ++ [r.participant] := by
  unfold participantStep
  split
  · rw [List.map_map]
    congr 1
    funext p
    by_cases hp : p.name = r.participant <;> simp [hp]
  · simp

lemma foldParticipants_names_nodup (records : List ActivityRecord) :
    ((foldParticipants records).map (fun p => p.name)).Nodup := by
  induction records using List.reverseRecOn with
  | nil => simp [foldParticipants]
  | append_singleton l a ih =>
    rw [foldParticipants_append, participantStep_names]
    split
    · exact ih
    · rename_i h
      have hk : a.participant ∉ (foldParticipants l).map (fun p => p.name) :=
        fun hmem => h ((any_name_iff _ _).mpr hmem)
      simp [List.nodup_append, ih, hk]

lemma foldParticipants_mem_names (records : List ActivityRecord) :
    ∀ n, n ∈ (foldParticipants records).map (fun p => p.name) ↔
      ∃ r ∈ records, r.participant = n := by
  induction records using List.reverseRecOn with
  | nil => simp [foldParticipants]
  | append_singleton l a ih =>
    intro n
    rw [foldParticipants_append, participantStep_names]
    split
    · rename_i h
      have hka : a.participant ∈ (foldParticipants l).map (fun p => p.name) :=
        (any_name_iff _ _).mp h
      rw [ih]
      constructor
      · rintro ⟨b, hb, hbn⟩
        exact ⟨b, by simp [hb], hbn⟩
      · rintro ⟨b, hb, hbn⟩
        rcases List.mem_append.mp hb with hb | hb
        · exact ⟨b, hb, hbn⟩
        · have hba : b = a := by simpa using hb
          subst hba
          subst hbn
          exact (ih b.participant).mp hka
    · rename_i h
      rw [List.mem_append, ih, List.mem_singleton]
      constructor
      · rintro (⟨b, hb, hbn⟩ | hn)
        · exact ⟨b, by simp [hb], hbn⟩
        · exact ⟨a, by simp, hn.symm⟩
      · rintro ⟨b, hb, hbn⟩
        rcases List.mem_append.mp hb with hb | hb
        · exact Or.inl ⟨b, hb, hbn⟩
        · have hba : b = a := by simpa using hb
          subst hba
          exact Or.inr hbn.symm

lemma foldParticipants_count (records : List ActivityRecord) :
    ∀ p ∈ foldParticipants records,
      p.activity_count = records.countP (fun r => r.participant = p.name) := by
  induction records using List.reverseRecOn with
  | nil => simp [foldParticipants]
  | append_singleton l a ih =>
    intro p hp
    rw [foldParticipants_append] at hp
    rw [List.countP_append]
    unfold participantStep at hp
    split at hp
    · rename_i h
      rcases List.mem_map.mp hp with ⟨q, hq, hqe⟩
      by_cases hqn : q.name = a.participant
      · rw [if_pos hqn] at hqe
        have h1 : p.name = q.name := by rw [← hqe]
        have h2 : p.activity_count = q.activity_count + 1 := by rw [← hqe]
        rw [h1, h2, ih q hq]
        have : List.countP (fun r => decide (r.participant = q.name)) [a] = 1 := by
          simp [List.countP_cons, hqn]
        omega
      · rw [if_neg hqn] at hqe
        subst hqe
        rw [ih q hq]
        have : List.countP (fun r => decide (r.participant = q.name)) [a] = 0 := by
          simp [List.countP_cons]
          intro hqa
          exact hqn hqa.symm
        omega
    · rename_i h
      rcases List.mem_append.mp hp with hp | hp
      · have hne : ¬ a.participant = p.name := by
          intro hap
          apply h
          apply (any_name_iff _ _).mpr
          rw [hap]
          exact List.mem_map.mpr ⟨p, hp, rfl⟩
        rw [ih p hp]
        have : List.countP (fun r => decide (r.participant = p.name)) [a] = 0 := by
          simp [List.countP_cons, hne]
        omega
      · have hpa := List.mem_singleton.mp hp
        subst hpa
        have hzero : List.countP
            (fun r => decide (r.participant = a.participant)) l = 0 := by
          rw [List.countP_eq_zero]
          intro b hb hbp
          apply h
          apply (any_name_iff _ _).mpr
          apply (foldParticipants_mem_names l a.participant).mpr
          exact ⟨b, hb, by simpa using hbp⟩
        show (1 : Nat) = List.countP
            (fun r => decide (r.participant = a.participant)) l +
          List.countP (fun r => decide (r.participant = a.participant)) [a]
        rw [hzero]
        simp [List.countP_cons]

lemma foldParticipants_times (records : List ActivityRecord) :
    records.Pairwise (fun a b => a.timestamp ≤ b.timestamp) →
    ∀ p ∈ foldParticipants records,
      (∃ r ∈ records, r.participant = p.name ∧ r.timestamp = p.join_time) ∧
      (∃ r ∈ records, r.participant = p.name ∧ r.timestamp = p.last_activity) ∧
      (∀ r ∈ records, r.participant = p.name →
        p.join_time ≤ r.timestamp ∧ r.timestamp ≤ p.last_activity) := by
  induction records using List.reverseRecOn with
  | nil =>
    intro _
    simp [foldParticipants]
  | append_singleton l a ih =>
    intro hs
    have hsplit := List.pairwise_append.mp hs
    have hsl := hsplit.1
    have hcross : ∀ x ∈ l, x.timestamp ≤ a.timestamp := by
      intro x hx
      exact hsplit.2.2 x hx a (by simp)
    intro p hp
    rw [foldParticipants_append] at hp
    unfold participantStep at hp
    split at hp
    · rename_i h
      rcases List.mem_map.mp hp with ⟨q, hq, hqe⟩
      obtain ⟨⟨r0, hr0, hr0n, hr0t⟩, ⟨r1, hr1, hr1n, hr1t⟩, hbound⟩ := ih hsl q hq
      by_cases hqn : q.name = a.participant
      · rw [if_pos hqn] at hqe
        have hname : p.name = q.name := by rw [← hqe]
        have hjoin : p.join_time = q.join_time := by rw [← hqe]
        have hlast : p.last_activity = a.timestamp := by rw [← hqe]
        refine ⟨⟨r0, by simp [hr0], ?_, ?_⟩, ⟨a, by simp, ?_, hlast.symm⟩, ?_⟩
        · rw [hname]; exact hr0n
        · rw [hjoin]; exact hr0t
        · rw [hname]; exact hqn.symm
        · intro r hr hrn
          rcases List.mem_append.mp hr with hr | hr
          · have hb := hbound r hr (by rw [← hname]; exact hrn)
            constructor
            · rw [hjoin]; exact hb.1
            · rw [hlast]; exact hcross r hr
          · have hra : r = a := by simpa using hr
            subst hra
            constructor
            · rw [hjoin, ← hr0t]; exact hcross r0 hr0
            · rw [hlast]
      · rw [if_neg hqn] at hqe
        subst hqe
        refine ⟨⟨r0, by simp [hr0], hr0n, hr0t⟩,
          ⟨r1, by simp [hr1], hr1n, hr1t⟩, ?_⟩
        intro r hr hrn
        rcases List.mem_append.mp hr with hr | hr
        · exact hbound r hr hrn
        · have hra : r = a := by simpa using hr
          subst hra
          exact absurd hrn.symm hqn
    · rename_i h
      rcases List.mem_append.mp hp with hp | hp
      · obtain ⟨⟨r0, hr0, hr0n, hr0t⟩, ⟨r1, hr1, hr1n, hr1t⟩, hbound⟩ :=
          ih hsl p hp
        refine ⟨⟨r0, by simp [hr0], hr0n, hr0t⟩,
          ⟨r1, by simp [hr1], hr1n, hr1t⟩, ?_⟩
        intro r hr hrn
        rcases List.mem_append.mp hr with hr | hr
        · exact hbound r hr hrn
        · have hra : r = a := by simpa using hr
          exfalso
          apply h
          apply (any_name_iff _ _).mpr
          rw [← hra, hrn]
          exact List.mem_map.mpr ⟨p, hp, rfl⟩
      · have hpa := List.mem_singleton.mp hp
        subst hpa
        refine ⟨⟨a, by simp, rfl, rfl⟩, ⟨a, by simp, rfl, rfl⟩, ?_⟩
        intro r hr hrn
        rcases List.mem_append.mp hr with hr | hr
        · exfalso
          apply h
          apply (any_name_iff _ _).mpr
          apply (foldParticipants_mem_names l a.participant).mpr
          exact ⟨r, hr, hrn⟩
        · have hra : r = a := by simpa using hr
          subst hra
          exact ⟨le_refl _, le_refl _⟩

/-! ### Concrete inputs used by the scenario claims -/

/-- The scenario input of the spec: six `("Alice","question",...,"s1")`
records followed by eleven `("Bob","chat_message",...,"s1")` records. -/
def scenarioRecords : List ActivityRecord :=
  List.replicate 6
    { timestamp := "t1", participant := "Alice", activity := "question",
      details := "", session_id := "s1" } ++
  List.replicate 11
    { timestamp := "t2", participant := "Bob", activity := "chat_message",
      details := "", session_id := "s1" }

/-- A small timestamp-ordered record list used to instantiate the
participant-summary theorems. -/
def sampleRecords : List ActivityRecord :=
  [{ timestamp := "2024-05-01T10:00:00", participant := "Alice",
     activity := "question", details := "", session_id := "default" },
   { timestamp := "2024-05-01T10:00:00", participant := "Bob",
     activity := "chat_message", details := "", session_id := "default" },
   { timestamp := "2024-05-01T10:00:00", participant := "Alice",
     activity := "chat_message", details := "", session_id := "default" }]

/-- Shape of the recommendation list: the two score rules and the two
question rules each contribute at most one line, and the chat rule always
contributes exactly one line, which comes last. -/
lemma recLines_shape (e q c : Nat) :
    1 ≤ (recLines e q c).length ∧ (recLines e q c).length ≤ 3 ∧
      ((recLines e q c).getLast? = some "Good chat interaction" ∨
       (recLines e q c).getLast? = some "Encourage more chat participation") := by
  unfold recLines
  by_cases h1 : e > 70 <;> by_cases h2 : e < 30 <;> by_cases h3 : q > 5 <;>
    by_cases h4 : q < 2 <;> by_cases h5 : c > 10 <;>
    simp [h1, h2, h3, h4, h5]

/-! ### The claims -/

/-- C1: for every session, the report of `get_engagement_analytics` has
`total_activities` equal to the number of records read,
`unique_participants` equal to the number of distinct participant names
among them, and `engagement_score = min(100, total_activities*2 +
unique_participants*10)`. -/
theorem engagement_score_formula (acts : List ActivityRecord) :
    (get_engagement_analytics (StoreRead.ok acts)).total_activities =
      acts.length ∧
    (get_engagement_analytics (StoreRead.ok acts)).unique_participants =
      (acts.map (fun a => a.participant)).toFinset.card ∧
    (get_engagement_analytics (StoreRead.ok acts)).engagement_score =
      min 100
        ((get_engagement_analytics (StoreRead.ok acts)).total_activities * 2 +
         (get_engagement_analytics (StoreRead.ok acts)).unique_participants * 10) :=
  ⟨rfl, tallyBy_length (fun a => a.participant) acts, rfl⟩

/-- C2 counterexample: on the spec's scenario input (6 Alice questions and
11 Bob chat messages in "s1") the engagement score is not 37 — the code
computes `min(100, 17*2 + 2*10) = 54`. -/
theorem scenario_engagement_score_ne_37 :
    (get_engagement_analytics (StoreRead.ok scenarioRecords)).engagement_score
      ≠ 37 := by
  decide

/-- C2 (amended): on the scenario input the report has
`activity_breakdown = {"question": 6, "chat_message": 11}`,
`unique_participants = 2`, recommendations containing both the "extend Q&A"
line and the "good chat interaction" line, and
`engagement_score = min(100, 17*2 + 2*10) = 54`. -/
theorem scenario_s1_report :
    (get_engagement_analytics (StoreRead.ok scenarioRecords)).activity_breakdown
      = some [("question", 6), ("chat_message", 11)] ∧
    (get_engagement_analytics (StoreRead.ok scenarioRecords)).unique_participants
      = 2 ∧
    (get_engagement_analytics (StoreRead.ok scenarioRecords)).engagement_score
      = 54 ∧
    ∃ recs,
      (get_engagement_analytics (StoreRead.ok scenarioRecords)).recommendations
        = some recs ∧
      "Many questions being asked - consider extending Q&A time" ∈ recs ∧
      "Good chat interaction" ∈ recs := by
  refine ⟨by decide, by decide, by decide,
    ["Many questions being asked - consider extending Q&A time",
     "Good chat interaction"], by decide, by decide, by decide⟩

/-- C3: `get_participants` returns exactly one summary per distinct
participant name occurring in the session's records (names are nodup and a
name appears iff some record carries it), and each summary's
`activity_count` equals the number of records for that name. -/
theorem participant_summaries_spec (records : List ActivityRecord) :
    (((get_participants (StoreRead.ok records)).participants).map
      (fun p => p.name)).Nodup ∧
    (∀ n, n ∈ ((get_participants (StoreRead.ok records)).participants).map
        (fun p => p.name) ↔ ∃ r ∈ records, r.participant = n) ∧
    ∀ p ∈ (get_participants (StoreRead.ok records)).participants,
      p.activity_count = records.countP (fun r => r.participant = p.name) :=
  ⟨foldParticipants_names_nodup records, foldParticipants_mem_names records,
    foldParticipants_count records⟩

/-- C4: when the store returns the session's records in timestamp order,
every summary's `join_time` is the timestamp of the participant's
chronologically first record (attained, and a lower bound on all their
timestamps), `last_activity` the timestamp of their most recent record
(attained, and an upper bound), and `join_time ≤ last_activity`. -/
theorem join_last_spec (records : List ActivityRecord)
    (hs : records.Pairwise (fun a b => a.timestamp ≤ b.timestamp)) :
    ∀ p ∈ (get_participants (StoreRead.ok records)).participants,
      (∃ r ∈ records, r.participant = p.name ∧ r.timestamp = p.join_time) ∧
      (∃ r ∈ records, r.participant = p.name ∧ r.timestamp = p.last_activity) ∧
      (∀ r ∈ records, r.participant = p.name →
        p.join_time ≤ r.timestamp ∧ r.timestamp ≤ p.last_activity) ∧
      p.join_time ≤ p.last_activity := by
  intro p hp
  obtain ⟨hfirst, hlastp, hbound⟩ := foldParticipants_times records hs p hp
  refine ⟨hfirst, hlastp, hbound, ?_⟩
  obtain ⟨r1, hr1, hr1n, hr1t⟩ := hlastp
  have hle := (hbound r1 hr1 hr1n).1
  rw [hr1t] at hle
  exact hle

/-- C4 witness: the theorem applied to a concrete timestamp-ordered record
list. -/
theorem join_last_spec_witness :
    sampleRecords.Pairwise (fun a b => a.timestamp ≤ b.timestamp) ∧
    ∀ p ∈ (get_participants (StoreRead.ok sampleRecords)).participants,
      (∃ r ∈ sampleRecords,
        r.participant = p.name ∧ r.timestamp = p.join_time) ∧
      (∃ r ∈ sampleRecords,
        r.participant = p.name ∧ r.timestamp = p.last_activity) ∧
      (∀ r ∈ sampleRecords, r.participant = p.name →
        p.join_time ≤ r.timestamp ∧ r.timestamp ≤ p.last_activity) ∧
      p.join_time ≤ p.last_activity := by
  have hs : sampleRecords.Pairwise (fun a b => a.timestamp ≤ b.timestamp) := by
    simp [sampleRecords]
  exact ⟨hs, join_last_spec sampleRecords hs⟩

/-- C5: `top_participants` is the per-participant tally sorted stably by
count descending and truncated to 5: it has at most 5 entries, is sorted by
count descending, equal-count entries keep their tally order (filtering the
sorted list at any count gives exactly the tally's entries of that count, in
order), the tally lists participants in first-seen order, and each tally
count is the participant's record count. -/
theorem top_participants_spec (acts : List ActivityRecord) :
    (get_engagement_analytics (StoreRead.ok acts)).top_participants =
      some ((sortDesc (tallyBy (fun a => a.participant) acts)).take 5) ∧
    ((sortDesc (tallyBy (fun a => a.participant) acts)).take 5).length ≤ 5 ∧
    ((sortDesc (tallyBy (fun a => a.participant) acts)).take 5).Pairwise
      (fun a b => b.2 ≤ a.2) ∧
    (∀ c, (sortDesc (tallyBy (fun a => a.participant) acts)).filter
        (fun p => p.2 = c) =
      (tallyBy (fun a => a.participant) acts).filter (fun p => p.2 = c)) ∧
    (tallyBy (fun a => a.participant) acts).map Prod.fst =
      firstSeen (acts.map (fun a => a.participant)) ∧
    ∀ kv ∈ tallyBy (fun a => a.participant) acts,
      kv.2 = acts.countP (fun a => a.participant = kv.1) := by
  refine ⟨rfl, List.length_take_le _ _, ?_,
    sortDesc_filter (tallyBy (fun a => a.participant) acts),
    tallyBy_keys_firstSeen (fun a => a.participant) acts,
    tallyBy_count (fun a => a.participant) acts⟩
  exact (sortDesc_pairwise _).sublist (List.take_sublist _ _)

/-- C6: appending one record never decreases the engagement score, and the
score never exceeds 100. -/
theorem engagement_score_monotone (acts : List ActivityRecord)
    (r : ActivityRecord) :
    (get_engagement_analytics (StoreRead.ok acts)).engagement_score ≤
      (get_engagement_analytics (StoreRead.ok (acts ++ [r]))).engagement_score ∧
    ∀ l : List ActivityRecord,
      (get_engagement_analytics (StoreRead.ok l)).engagement_score ≤ 100 := by
  constructor
  · show min 100 (acts.length * 2 +
        (tallyBy (fun a => a.participant) acts).length * 10) ≤
      min 100 ((acts ++ [r]).length * 2 +
        (tallyBy (fun a => a.participant) (acts ++ [r])).length * 10)
    have h1 : (tallyBy (fun a => a.participant) acts).length ≤
        (tallyBy (fun a => a.participant) (acts ++ [r])).length := by
      rw [tallyBy_append]
      exact bump_length _ _
    have h2 : acts.length ≤ (acts ++ [r]).length := by simp
    exact min_le_min (le_refl 100) (by omega)
  · intro l
    show min 100 _ ≤ 100
    exact min_le_left _ _

/-- C7: analytics on a session with no records returns score 0, zero
counts, and exactly the three low-engagement recommendation lines. -/
theorem analyze_empty_session :
    (get_engagement_analytics (StoreRead.ok [])).engagement_score = 0 ∧
    (get_engagement_analytics (StoreRead.ok [])).total_activities = 0 ∧
    (get_engagement_analytics (StoreRead.ok [])).unique_participants = 0 ∧
    (get_engagement_analytics (StoreRead.ok [])).recommendations =
      some ["Low engagement - consider encouraging more participation",
        "Few questions - consider prompting for questions",
        "Encourage more chat participation"] := by
  decide

/-- C8 counterexample: a store read that fails with the CloudWatch
`ClientError` yields an empty participant list but no error field at all —
refuting that every read failure surfaces an error field. -/
theorem clientError_no_error_field :
    (get_participants StoreRead.clientError).participants = [] ∧
    (get_participants StoreRead.clientError).error = none :=
  ⟨rfl, rfl⟩

/-- C8 (amended): `get_participants` never raises; a read failing with an
exception that reaches the handler yields an empty list plus an error
field, while a fallback-log read failing with a swallowed `ClientError`
yields an empty list with no error field. -/
theorem get_participants_failure_amended (msg : String) :
    (get_participants (StoreRead.failure msg)).participants = [] ∧
    (get_participants (StoreRead.failure msg)).error =
      some ("Failed to get participants: " ++ msg) ∧
    (get_participants StoreRead.clientError).participants = [] ∧
    (get_participants StoreRead.clientError).error = none :=
  ⟨rfl, rfl, rfl, rfl⟩

/-- C9: on the success path the recommendation list is never empty — it has
between 1 and 3 lines and always ends with one of the two chat-rule lines. -/
theorem recommendations_bounds (acts : List ActivityRecord) :
    ∃ l, (get_engagement_analytics (StoreRead.ok acts)).recommendations =
        some l ∧
      1 ≤ l.length ∧ l.length ≤ 3 ∧
      (l.getLast? = some "Good chat interaction" ∨
       l.getLast? = some "Encourage more chat participation") :=
  ⟨recLines
      (min 100 (acts.length * 2 +
        (tallyBy (fun a => a.participant) acts).length * 10))
      (dictGet (tallyBy (fun a => a.activity) acts) "question" 0)
      (dictGet (tallyBy (fun a => a.activity) acts) "chat_message" 0),
    rfl, recLines_shape _ _ _⟩

/-- C10: the failure report carries only zeroed counts plus the error
description — `activity_breakdown`, `top_participants` and
`recommendations` are absent — whereas the success report always carries
them. -/
theorem analytics_failure_shape (msg : String) (acts : List ActivityRecord) :
    (get_engagement_analytics (StoreRead.failure msg)).total_activities = 0 ∧
    (get_engagement_analytics (StoreRead.failure msg)).unique_participants = 0 ∧
    (get_engagement_analytics (StoreRead.failure msg)).engagement_score = 0 ∧
    (get_engagement_analytics (StoreRead.failure msg)).error =
      some ("Analytics generation failed: " ++ msg) ∧
    (get_engagement_analytics (StoreRead.failure msg)).activity_breakdown
      = none ∧
    (get_engagement_analytics (StoreRead.failure msg)).top_participants
      = none ∧
    (get_engagement_analytics (StoreRead.failure msg)).recommendations
      = none ∧
    (get_engagement_analytics (StoreRead.ok acts)).activity_breakdown ≠ none ∧
    (get_engagement_analytics (StoreRead.ok acts)).top_participants ≠ none ∧
    (get_engagement_analytics (StoreRead.ok acts)).recommendations ≠ none :=
  ⟨rfl, rfl, rfl, rfl, rfl, rfl, rfl, Option.some_ne_none _,
    Option.some_ne_none _, Option.some_ne_none _⟩
